import Mathlib

/-!
Verification of the interview-orchestration core of the arbeit-project
recruitment backend (src/backend/server.py).

The embedding below translates the interview endpoints of server.py into
pure Lean functions over an explicit database state.  MongoDB documents
become structures, ISO timestamps stay opaque strings, `update_one` with a
filter becomes an update of the first matching list element, and `$inc`
becomes an explicit increment of the first matching record.  Each HTTP
endpoint becomes a function returning `Except ApiError DB`; an exception
raised before the database write corresponds to an `error` result that
leaves the state untouched.  Permission and tenant checks, audit logging
and notification delivery are external collaborators (spec sections 1 and
6) and are not part of the transition semantics.
-/

namespace Arbeit

/-- The interview lifecycle statuses.  These are the exact string literals
accepted by server.py (the `Literal` type on `InterviewUpdate`):
Draft, Awaiting Candidate Confirmation, Confirmed, Scheduled, Completed,
No Show, Cancelled, Passed, Failed. -/
inductive IStatus where
  | draft
  | awaitingConfirmation
  | confirmed
  | scheduled
  | completed
  | noShow
  | cancelled
  | passed
  | failed
  deriving DecidableEq, Repr

/-- One proposed time slot, as stored inside `interview.proposed_slots`
(server.py `InterviewSlot` / the dicts built in `create_interview`). -/
structure Slot where
  slot_id : String
  start_time : String
  end_time : String
  duration_minutes : Nat
  is_available : Bool := true
  deriving DecidableEq, Repr

/-- One interview document, mirroring the `interview_doc` persisted by
`create_interview` plus the extra fields written later by send-invite,
move-to-next-round, reject and initiate-hiring.  Fields that server.py can
leave absent or set to JSON null are `Option`s. -/
structure Interview where
  interview_id : String
  job_id : String
  candidate_id : String
  client_id : String
  interview_mode : Option String := some "Video"
  interview_duration : Nat := 30
  time_zone : Option String := some "Asia/Kolkata"
  proposed_slots : List Slot := []
  selected_slot_id : Option String := none
  scheduled_start_time : Option String := none
  scheduled_end_time : Option String := none
  interview_status : IStatus := .awaitingConfirmation
  meeting_link : Option String := none
  additional_instructions : Option String := none
  invite_sent : Bool := false
  invite_sent_by : Option String := none
  invite_sent_at : Option String := none
  candidate_confirmation_timestamp : Option String := none
  no_show_flag : Bool := false
  no_show_count : Nat := 0
  interview_round : Nat := 1
  round_name : Option String := none
  feedback : Option String := none
  rating : Option Nat := none
  duration_minutes : Option Nat := none
  calendar_event_id : Option String := none
  calendar_link : Option String := none
  hiring_initiated : Bool := false
  hiring_initiated_at : Option String := none
  hiring_initiated_by : Option String := none
  passed_by : Option String := none
  passed_at : Option String := none
  rejected_by : Option String := none
  rejected_at : Option String := none
  created_at : String := ""
  updated_at : String := ""
  created_by : String := ""
  deriving DecidableEq, Repr

/-- The candidate projection mutated by the interview core (spec section 3:
status, current_round, no_show_count, last_interview_passed,
rejected_at_round, offer fields). -/
structure Candidate where
  candidate_id : String
  job_id : String
  name : Option String := none
  email : Option String := none
  status : String := "NEW"
  current_round : Nat := 1
  no_show_count : Nat := 0
  last_interview_passed : Option String := none
  rejected_at_round : Option Nat := none
  rejection_reason : Option String := none
  total_rounds_cleared : Option Nat := none
  salary_offered : Option String := none
  proposed_joining_date : Option String := none
  offer_notes : Option String := none
  selected_at : Option String := none
  selected_by : Option String := none
  updated_at : String := ""
  deriving DecidableEq, Repr

/-- Job record: only the fields the interview endpoints read. -/
structure Job where
  job_id : String
  client_id : String
  title : Option String := none
  deriving DecidableEq, Repr

/-- Client (tenant) record: only the fields the interview endpoints read. -/
structure Client where
  client_id : String
  company_name : Option String := none
  deriving DecidableEq, Repr

/-- The collections touched by the interview core. -/
structure DB where
  interviews : List Interview := []
  candidates : List Candidate := []
  jobs : List Job := []
  clients : List Client := []
  deriving DecidableEq, Repr

/-- The error outcomes the interview endpoints can raise before writing
anything (HTTPException branches in server.py). -/
inductive ApiError where
  | notFound (detail : String)
  | invalidStateTransition (current : IStatus)
  | slotUnavailable
  | notCompletedOrScheduled (current : IStatus)
  | badRequest (detail : String)
  | validationError
  deriving DecidableEq, Repr

/-- Body of POST /interviews (server.py `InterviewCreate`, lines 656-667).
The pydantic model constrains interview_duration to 15..240,
interview_round to 1..10 and interview_mode to three literals; it puts NO
constraint on the number of proposed_slots (a plain `List[dict]`) and none
on the slot times. -/
structure InterviewCreate where
  job_id : String
  candidate_id : String
  interview_mode : String
  interview_duration : Nat
  time_zone : String := "Asia/Kolkata"
  proposed_slots : List (String × String) := []
  meeting_link : Option String := none
  additional_instructions : Option String := none
  interview_round : Nat := 1
  round_name : Option String := none
  deriving DecidableEq, Repr

/-- The request-body validation FastAPI performs from the pydantic
annotations of server.py `InterviewCreate` before the handler runs.
Note: only mode, duration and round are constrained. -/
def validateInterviewCreate (c : InterviewCreate) : Bool :=
  (c.interview_mode = "Video" || c.interview_mode = "Phone" ||
      c.interview_mode = "Onsite") &&
    (15 ≤ c.interview_duration && c.interview_duration ≤ 240) &&
    (1 ≤ c.interview_round && c.interview_round ≤ 10)

/-- Body of POST .../send-invite (server.py `SendInterviewInviteRequest`,
lines 5830-5836) with its pydantic defaults. -/
structure SendInterviewInviteRequest where
  meeting_link : Option String := none
  interview_mode : Option String := some "Video"
  duration_minutes : Option Nat := some 30
  time_zone : Option String := some "IST (Indian Standard Time)"
  auto_create_calendar_event : Option Bool := some false
  deriving DecidableEq, Repr

/-- Successful result of the external Google-Calendar collaborator
(notification_service.create_google_calendar_event); the call is
network-bound, so its outcome is an input of the embedding. -/
structure CalendarResult where
  meeting_link : String := ""
  event_id : String := ""
  calendar_link : String := ""
  deriving DecidableEq, Repr

/-- Body of POST .../move-to-next-round and .../reject
(server.py `MoveToNextRoundRequest`). -/
structure MoveToNextRoundRequest where
  feedback : Option String := none
  rating : Option Nat := none
  next_round_name : Option String := none
  deriving DecidableEq, Repr

/-- Body of POST .../initiate-hiring (server.py `InitiateHiringRequest`). -/
structure InitiateHiringRequest where
  feedback : Option String := none
  rating : Option Nat := none
  salary_offered : Option String := none
  joining_date : Option String := none
  offer_notes : Option String := none
  deriving DecidableEq, Repr

/-- The dashboard statistics record (server.py `InterviewPipelineStats`). -/
structure InterviewPipelineStats where
  total_interviews : Nat
  awaiting_confirmation : Nat
  confirmed : Nat
  scheduled : Nat
  completed : Nat
  no_shows : Nat
  cancelled : Nat
  deriving DecidableEq, Repr

/-- Mongo `find_one({"interview_id": iid})`: first matching document. -/
def findInterview (l : List Interview) (iid : String) : Option Interview :=
  l.find? fun i => decide (i.interview_id = iid)

/-- Mongo `find_one({"candidate_id": cid})`. -/
def findCandidate (l : List Candidate) (cid : String) : Option Candidate :=
  l.find? fun c => decide (c.candidate_id = cid)

/-- Mongo `update_one(filter, ...)`: rewrite the first element satisfying
the filter, leave the rest untouched (no-op when nothing matches). -/
def updateFirstBy {α : Type} (p : α → Bool) (f : α → α) : List α → List α
  | [] => []
  | a :: rest => if p a then f a :: rest else a :: updateFirstBy p f rest

/-- Update the first interview with the given id. -/
def updateInterviewIn (l : List Interview) (iid : String) (f : Interview → Interview) :
    List Interview :=
  updateFirstBy (fun i => decide (i.interview_id = iid)) f l

/-- Update the first candidate with the given id. -/
def updateCandidateIn (l : List Candidate) (cid : String) (f : Candidate → Candidate) :
    List Candidate :=
  updateFirstBy (fun c => decide (c.candidate_id = cid)) f l

/-- The slot-lookup loop of book_interview_slot / public_book_slot. -/
def findSlot (slots : List Slot) (sid : String) : Option Slot :=
  slots.find? fun s => decide (s.slot_id = sid)

/-- The slot-claiming loop of book_interview_slot: every slot whose id
matches is flagged unavailable, all other slots are kept as they are. -/
def claimSlots (slots : List Slot) (sid : String) : List Slot :=
  slots.map fun s =>
    if s.slot_id = sid then { s with is_available := false } else s

/-- The per-document effect and guards of book_interview_slot
(server.py lines 5742-5798).  Raises 400 with the current status when the
interview is not awaiting confirmation, 404 when the slot id is not among
proposed_slots, 400 when the slot is no longer available; on success it
claims the slot, records the selection and the derived schedule, and sets
the status to Confirmed exactly when the request confirms. -/
def bookSlot (i : Interview) (sid : String) (conf : Bool) (now : String) :
    Except ApiError Interview :=
  if i.interview_status = .awaitingConfirmation then
    match findSlot i.proposed_slots sid with
    | none => .error (.notFound "Slot not found")
    | some s =>
      if s.is_available then
        .ok { i with
          selected_slot_id := some sid
          scheduled_start_time := some s.start_time
          scheduled_end_time := some s.end_time
          interview_status := if conf then .confirmed else .awaitingConfirmation
          candidate_confirmation_timestamp := if conf then some now else none
          proposed_slots := claimSlots i.proposed_slots sid
          updated_at := now }
      else .error .slotUnavailable
  else .error (.invalidStateTransition i.interview_status)

/-- POST /interviews/{id}/book-slot at the database level: read the
document, run the guards, write back on success only. -/
def bookSlotDB (db : DB) (iid sid : String) (conf : Bool) (now : String) :
    Except ApiError DB :=
  match findInterview db.interviews iid with
  | none => .error (.notFound "Interview not found")
  | some i =>
    match bookSlot i sid conf now with
    | .error e => .error e
    | .ok j => .ok { db with interviews := updateInterviewIn db.interviews iid fun _ => j }

/-- POST /public/interviews/{id}/book (lines 6596-6652): identical guards
and identical write, always with confirmed semantics. -/
def publicBookDB (db : DB) (iid sid : String) (now : String) : Except ApiError DB :=
  match findInterview db.interviews iid with
  | none => .error (.notFound "Interview not found")
  | some i =>
    match bookSlot i sid true now with
    | .error e => .error e
    | .ok j => .ok { db with interviews := updateInterviewIn db.interviews iid fun _ => j }

/-- The `$set` applied by send_interview_invite (lines 5918-5940).  The
interview_data dict is rebuilt from the request (or the literal defaults
when the body is omitted); a successful calendar creation, possible only
when explicitly requested, replaces the meeting link. -/
def sendInviteUpd (i : Interview) (req : Option SendInterviewInviteRequest)
    (cal : Option CalendarResult) (sender now : String) : Interview :=
  let calUsed : Option CalendarResult :=
    match req with
    | some r => if r.auto_create_calendar_event = some true then cal else none
    | none => none
  let link : Option String :=
    match calUsed with
    | some c => some c.meeting_link
    | none => match req with
      | some r => r.meeting_link
      | none => some ""
  { i with
    invite_sent := true
    invite_sent_by := some sender
    invite_sent_at := some now
    interview_status :=
      if i.interview_status = .confirmed then .scheduled else i.interview_status
    meeting_link := link
    interview_mode := match req with | some r => r.interview_mode | none => some "Video"
    duration_minutes := match req with | some r => r.duration_minutes | none => some 30
    time_zone :=
      match req with | some r => r.time_zone | none => some "IST (Indian Standard Time)"
    calendar_event_id :=
      match calUsed with | some c => some c.event_id | none => i.calendar_event_id
    calendar_link :=
      match calUsed with | some c => some c.calendar_link | none => i.calendar_link
    updated_at := now }

/-- POST /interviews/{id}/send-invite (lines 5839-5965): lookups can fail
with 404/400 before the write; mail delivery is fire-and-forget and does
not gate the update. -/
def sendInviteDB (db : DB) (iid : String) (req : Option SendInterviewInviteRequest)
    (cal : Option CalendarResult) (sender now : String) : Except ApiError DB :=
  match findInterview db.interviews iid with
  | none => .error (.notFound "Interview not found")
  | some i =>
    match findCandidate db.candidates i.candidate_id with
    | none => .error (.notFound "Candidate not found")
    | some cand =>
      match cand.email with
      | none => .error (.badRequest "Candidate does not have an email address")
      | some _ =>
        match db.jobs.find? fun j => decide (j.job_id = i.job_id) with
        | none => .error (.notFound "Job or client not found")
        | some _ =>
          match db.clients.find? fun c => decide (c.client_id = i.client_id) with
          | none => .error (.notFound "Job or client not found")
          | some _ =>
            .ok { db with interviews :=
              updateInterviewIn db.interviews iid fun _ =>
                sendInviteUpd i req cal sender now }

/-- POST /interviews/{id}/mark-completed (lines 5968-6010): after the
existence check there is no status guard at all; the document is stamped
Completed unconditionally. -/
def markCompletedDB (db : DB) (iid now : String) : Except ApiError DB :=
  match findInterview db.interviews iid with
  | none => .error (.notFound "Interview not found")
  | some _ =>
    .ok { db with interviews := updateInterviewIn db.interviews iid fun j =>
      { j with interview_status := .completed, updated_at := now } }

/-- POST /interviews/{id}/mark-no-show (lines 6013-6067): no status guard;
sets the flag, writes interview.no_show_count+1 computed from the document
it read, and `$inc`s the candidate aggregate by one. -/
def markNoShowDB (db : DB) (iid now : String) : Except ApiError DB :=
  match findInterview db.interviews iid with
  | none => .error (.notFound "Interview not found")
  | some i =>
    .ok { db with
      interviews := updateInterviewIn db.interviews iid fun j =>
        { j with
          interview_status := .noShow
          no_show_flag := true
          no_show_count := i.no_show_count + 1
          updated_at := now }
      candidates := updateCandidateIn db.candidates i.candidate_id fun c =>
        { c with no_show_count := c.no_show_count + 1 } }

/-- POST /interviews/{id}/cancel (lines 6070-6112): no guard. -/
def cancelDB (db : DB) (iid now : String) : Except ApiError DB :=
  match findInterview db.interviews iid with
  | none => .error (.notFound "Interview not found")
  | some _ =>
    .ok { db with interviews := updateInterviewIn db.interviews iid fun j =>
      { j with interview_status := .cancelled, updated_at := now } }

/-- POST /interviews/{id}/move-to-next-round (lines 6132-6228): guarded on
status Completed or Scheduled; marks the interview Passed and SETS
candidate.current_round to this interview round + 1 (read from the
interview, not from the candidate). -/
def moveToNextRoundDB (db : DB) (iid : String) (req : MoveToNextRoundRequest)
    (sender now : String) : Except ApiError DB :=
  match findInterview db.interviews iid with
  | none => .error (.notFound "Interview not found")
  | some i =>
    if i.interview_status = .completed ∨ i.interview_status = .scheduled then
      .ok { db with
        interviews := updateInterviewIn db.interviews iid fun j =>
          { j with
            interview_status := .passed
            feedback := req.feedback
            rating := req.rating
            updated_at := now
            passed_by := some sender
            passed_at := some now }
        candidates := updateCandidateIn db.candidates i.candidate_id fun c =>
          { c with
            status := "IN_PROGRESS"
            current_round := i.interview_round + 1
            last_interview_passed := some iid
            updated_at := now } }
    else .error (.notCompletedOrScheduled i.interview_status)

/-- POST /interviews/{id}/reject (lines 6231-6293): no status guard;
interview becomes Failed, candidate becomes REJECTED at this round. -/
def rejectDB (db : DB) (iid : String) (req : MoveToNextRoundRequest)
    (sender now : String) : Except ApiError DB :=
  match findInterview db.interviews iid with
  | none => .error (.notFound "Interview not found")
  | some i =>
    .ok { db with
      interviews := updateInterviewIn db.interviews iid fun j =>
        { j with
          interview_status := .failed
          feedback := req.feedback
          rating := req.rating
          updated_at := now
          rejected_by := some sender
          rejected_at := some now }
      candidates := updateCandidateIn db.candidates i.candidate_id fun c =>
        { c with
          status := "REJECTED"
          rejection_reason := req.feedback
          rejected_at_round := some i.interview_round
          updated_at := now } }

/-- POST /interviews/{id}/initiate-hiring (lines 6296-6392): no status
guard; interview becomes Passed with the hiring flags, candidate becomes
SELECTED with the offer fields and total_rounds_cleared = this round. -/
def initiateHiringDB (db : DB) (iid : String) (req : InitiateHiringRequest)
    (sender now : String) : Except ApiError DB :=
  match findInterview db.interviews iid with
  | none => .error (.notFound "Interview not found")
  | some i =>
    .ok { db with
      interviews := updateInterviewIn db.interviews iid fun j =>
        { j with
          interview_status := .passed
          feedback := req.feedback
          rating := req.rating
          hiring_initiated := true
          hiring_initiated_at := some now
          hiring_initiated_by := some sender
          updated_at := now }
      candidates := updateCandidateIn db.candidates i.candidate_id fun c =>
        { c with
          status := "SELECTED"
          selected_at := some now
          selected_by := some sender
          salary_offered := req.salary_offered
          proposed_joining_date := req.joining_date
          offer_notes := req.offer_notes
          total_rounds_cleared := some i.interview_round
          updated_at := now } }

/-- The slot documents built by create_interview: one generated id per
requested (start_time, end_time) pair, duration copied from the interview,
is_available initialised to true; the times are stored verbatim. -/
def processSlots (dur : Nat) (slotIds : List String)
    (reqs : List (String × String)) : List Slot :=
  (slotIds.zip reqs).map fun p =>
    { slot_id := p.1
      start_time := p.2.1
      end_time := p.2.2
      duration_minutes := dur
      is_available := true }

/-- The interview_doc persisted by create_interview (lines 5507-5534). -/
def mkInterview (data : InterviewCreate) (clientId iid : String)
    (slotIds : List String) (now creator : String) : Interview :=
  { interview_id := iid
    job_id := data.job_id
    candidate_id := data.candidate_id
    client_id := clientId
    interview_mode := some data.interview_mode
    interview_duration := data.interview_duration
    time_zone := some data.time_zone
    proposed_slots := processSlots data.interview_duration slotIds data.proposed_slots
    selected_slot_id := none
    scheduled_start_time := none
    scheduled_end_time := none
    interview_status := .awaitingConfirmation
    meeting_link := data.meeting_link
    additional_instructions := data.additional_instructions
    invite_sent := false
    invite_sent_by := none
    candidate_confirmation_timestamp := none
    no_show_flag := false
    no_show_count := 0
    interview_round := data.interview_round
    round_name := data.round_name
    feedback := none
    rating := none
    created_at := now
    updated_at := now
    created_by := creator }

/-- POST /interviews (lines 5449-5584): pydantic validation happens before
the handler, then job and candidate must exist and be linked, then the
document is inserted with status Awaiting Candidate Confirmation.
The generated uuids are inputs of the embedding. -/
def createInterviewDB (db : DB) (data : InterviewCreate) (iid : String)
    (slotIds : List String) (now creator : String) : Except ApiError DB :=
  if validateInterviewCreate data then
    match db.jobs.find? fun j => decide (j.job_id = data.job_id) with
    | none => .error (.notFound "Job not found")
    | some job =>
      match findCandidate db.candidates data.candidate_id with
      | none => .error (.notFound "Candidate not found")
      | some cand =>
        if cand.job_id = data.job_id then
          .ok { db with interviews :=
            db.interviews ++ [mkInterview data job.client_id iid slotIds now creator] }
        else .error (.badRequest "Candidate does not belong to this job")
  else .error .validationError

/-- Number of interviews in a collection holding a given status (the size
of the corresponding `$group` bucket of the aggregation). -/
def countStatus (l : List Interview) (st : IStatus) : Nat :=
  (l.filter fun i => decide (i.interview_status = st)).length

/-- GET /interviews/stats/pipeline (lines 6433-6484): the aggregation
groups by status; every group, mapped or not, is added into
total_interviews, and only the six mapped statuses fill a named bucket.
The unmapped statuses (Draft, Passed, Failed) reach only the total. -/
def pipelineStats (l : List Interview) : InterviewPipelineStats :=
  { total_interviews :=
      countStatus l .draft + countStatus l .awaitingConfirmation +
        countStatus l .confirmed + countStatus l .scheduled +
        countStatus l .completed + countStatus l .noShow +
        countStatus l .cancelled + countStatus l .passed + countStatus l .failed
    awaiting_confirmation := countStatus l .awaitingConfirmation
    confirmed := countStatus l .confirmed
    scheduled := countStatus l .scheduled
    completed := countStatus l .completed
    no_shows := countStatus l .noShow
    cancelled := countStatus l .cancelled }

/-- The command surface of the interview core (spec section 6). -/
inductive Command where
  | book (iid sid : String) (conf : Bool) (now : String)
  | publicBook (iid sid : String) (now : String)
  | sendInvite (iid : String) (req : Option SendInterviewInviteRequest)
      (cal : Option CalendarResult) (sender now : String)
  | markCompleted (iid : String) (now : String)
  | markNoShow (iid : String) (now : String)
  | cancel (iid : String) (now : String)
  | moveToNextRound (iid : String) (req : MoveToNextRoundRequest) (sender now : String)
  | reject (iid : String) (req : MoveToNextRoundRequest) (sender now : String)
  | initiateHiring (iid : String) (req : InitiateHiringRequest) (sender now : String)
  deriving DecidableEq, Repr

/-- Dispatch one command against the database. -/
def step (db : DB) : Command → Except ApiError DB
  | .book iid sid conf now => bookSlotDB db iid sid conf now
  | .publicBook iid sid now => publicBookDB db iid sid now
  | .sendInvite iid req cal sender now => sendInviteDB db iid req cal sender now
  | .markCompleted iid now => markCompletedDB db iid now
  | .markNoShow iid now => markNoShowDB db iid now
  | .cancel iid now => cancelDB db iid now
  | .moveToNextRound iid req sender now => moveToNextRoundDB db iid req sender now
  | .reject iid req sender now => rejectDB db iid req sender now
  | .initiateHiring iid req sender now => initiateHiringDB db iid req sender now

/-- Run a command sequence; a rejected command raises before any write, so
it leaves the database as it was. -/
def run (db : DB) : List Command → DB
  | [] => db
  | c :: cs =>
    match step db c with
    | .ok db2 => run db2 cs
    | .error _ => run db cs

/-- Extract the database of a successful endpoint result. -/
def resultDB (r : Except ApiError DB) : Option DB :=
  match r with
  | .ok d => some d
  | .error _ => none

/-- Extract the error of a failed endpoint result. -/
def resultErr (r : Except ApiError DB) : Option ApiError :=
  match r with
  | .ok _ => none
  | .error e => some e

/-- Number of slots of an interview already claimed (is_available = false). -/
def unavailableCount (i : Interview) : Nat :=
  (i.proposed_slots.filter fun s => !s.is_available).length

/-- The claimed per-interview slot invariant of spec sections 3 and 8:
at most one slot of proposed_slots is unavailable. -/
def atMostOneClaimed (i : Interview) : Bool :=
  unavailableCount i ≤ 1

/-- Terminal statuses according to spec section 4.1: NoShow and Cancelled
are reachable from any non-terminal state; Passed and Failed are the
terminal outcomes. -/
def specNonTerminal (a : IStatus) : Bool :=
  match a with
  | .passed | .failed | .noShow | .cancelled => false
  | _ => true

/-- The status-changing edges of the transition table of spec section 4.1,
written from the spec words (the spec side of the refinement claim about
legal transitions): book confirms Awaiting to Confirmed, send-invite moves
Confirmed to Scheduled, mark-completed moves Scheduled to Completed,
mark-no-show and cancel leave any non-terminal state, move-to-next-round
passes Completed or Scheduled, and reject / initiate-hiring accept any
state. -/
def specTransitionTableEdge (a b : IStatus) : Bool :=
  match b with
  | .confirmed => decide (a = .awaitingConfirmation)
  | .scheduled => decide (a = .confirmed)
  | .completed => decide (a = .scheduled)
  | .noShow => specNonTerminal a
  | .cancelled => specNonTerminal a
  | .passed => decide (a = .completed) || decide (a = .scheduled) || true
  | .failed => true
  | .draft => false
  | .awaitingConfirmation => false

/-! Concrete fixtures: one tenant, one job, one linked candidate, and the
interviews used by the counterexamples and witnesses. -/

def fixtureJob : Job := { job_id := "job1", client_id := "cl1" }

def fixtureCandidate : Candidate :=
  { candidate_id := "c1", job_id := "job1", email := some "c1@mail.io" }

def fixtureClient : Client := { client_id := "cl1" }

def baseDB : DB :=
  { interviews := []
    candidates := [fixtureCandidate]
    jobs := [fixtureJob]
    clients := [fixtureClient] }

def twoSlotCreate : InterviewCreate :=
  { job_id := "job1"
    candidate_id := "c1"
    interview_mode := "Video"
    interview_duration := 60
    proposed_slots :=
      [("2025-01-20T10:00:00Z", "2025-01-20T11:00:00Z"),
       ("2025-01-20T14:00:00Z", "2025-01-20T15:00:00Z")] }

/-- The database right after a successful create of a two-slot interview. -/
def dbCreated : DB :=
  match createInterviewDB baseDB twoSlotCreate "int1" ["slot_a", "slot_b"] "t0" "admin" with
  | .ok d => d
  | .error _ => baseDB

/-- The state reached by booking both slots of the created interview with
confirmed = false: each booking passes all the guards because the status
stays Awaiting Candidate Confirmation. -/
def c1Final : DB :=
  run dbCreated
    [.book "int1" "slot_a" false "t1", .book "int1" "slot_b" false "t2"]

/-- The state reached by marking the freshly created (awaiting) interview
as no-show twice in a row; no guard stops the repeat. -/
def c4Final : DB :=
  run dbCreated [.markNoShow "int1" "t1", .markNoShow "int1" "t2"]

def roundOneInterview : Interview :=
  { interview_id := "intA", job_id := "job1", candidate_id := "c1",
    client_id := "cl1", interview_status := .completed, interview_round := 1 }

def roundTwoInterview : Interview :=
  { interview_id := "intB", job_id := "job1", candidate_id := "c1",
    client_id := "cl1", interview_status := .completed, interview_round := 2 }

def twoRoundDB : DB :=
  { interviews := [roundOneInterview, roundTwoInterview]
    candidates := [fixtureCandidate]
    jobs := [fixtureJob]
    clients := [fixtureClient] }

/-- Passing the round-2 interview first: candidate.current_round becomes 3. -/
def c5Mid : DB := run twoRoundDB [.moveToNextRound "intB" {} "admin" "t1"]

/-- Then passing the still-Completed round-1 interview: current_round is
overwritten with 1 + 1 = 2, a decrease. -/
def c5Final : DB := run c5Mid [.moveToNextRound "intA" {} "admin" "t2"]

/-- Claim C1 counterexample: starting from a successfully created two-slot
interview, the two-command sequence book(slot_a, confirmed = false) then
book(slot_b, confirmed = false) reaches a state in which both slots have
is_available = false, so the claimed invariant that at most one slot per
interview is ever claimed is violated on a reachable state. -/
theorem C1_counterexample :
    resultDB (createInterviewDB baseDB twoSlotCreate "int1" ["slot_a", "slot_b"] "t0" "admin") =
        some dbCreated ∧
      (findInterview c1Final.interviews "int1").map atMostOneClaimed = some false ∧
      (findInterview c1Final.interviews "int1").map unavailableCount = some 2 := by
  decide

/-- Claim C3 counterexample: the freshly created interview has status
Awaiting Candidate Confirmation, yet mark-completed succeeds on it and
stamps it Completed, although (AwaitingConfirmation, Completed) is not an
edge of the transition table of spec section 4.1. -/
theorem C3_counterexample :
    (findInterview dbCreated.interviews "int1").map Interview.interview_status =
        some .awaitingConfirmation ∧
      ((resultDB (markCompletedDB dbCreated "int1" "t1")).bind fun d =>
          (findInterview d.interviews "int1").map Interview.interview_status) =
        some .completed ∧
      specTransitionTableEdge .awaitingConfirmation .completed = false := by
  decide

/-- Claim C4 counterexample: marking the same interview no-show twice is
accepted, leaving the interview with no_show_count = 2, so the claimed
bound that every interview has no_show_count 0 or 1 fails (the candidate
aggregate also reaches 2, matching the sum over interviews). -/
theorem C4_counterexample :
    (findInterview c4Final.interviews "int1").map Interview.no_show_count = some 2 ∧
      (findCandidate c4Final.candidates "c1").map Candidate.no_show_count = some 2 := by
  decide

/-- Claim C5 counterexample: with two Completed interviews for the same
candidate and job (rounds 1 and 2), passing round 2 first sets
candidate.current_round to 3, and then passing round 1 overwrites it with
2 - current_round decreases across move_to_next_round calls, because the
handler sets it to interview_round + 1 instead of incrementing it. -/
theorem C5_counterexample :
    (findCandidate c5Mid.candidates "c1").map Candidate.current_round = some 3 ∧
      (findCandidate c5Final.candidates "c1").map Candidate.current_round = some 2 := by
  decide

def zeroSlotCreate : InterviewCreate :=
  { job_id := "job1", candidate_id := "c1", interview_mode := "Video",
    interview_duration := 60, proposed_slots := [] }

def sixSlotCreate : InterviewCreate :=
  { job_id := "job1", candidate_id := "c1", interview_mode := "Video",
    interview_duration := 60,
    proposed_slots :=
      [("a1", "b1"), ("a2", "b2"), ("a3", "b3"), ("a4", "b4"), ("a5", "b5"), ("a6", "b6")] }

def reversedSlotCreate : InterviewCreate :=
  { job_id := "job1", candidate_id := "c1", interview_mode := "Video",
    interview_duration := 60,
    proposed_slots := [("2025-01-20T11:00:00Z", "2025-01-20T10:00:00Z")] }

def shortDurationCreate : InterviewCreate :=
  { job_id := "job1", candidate_id := "c1", interview_mode := "Video",
    interview_duration := 10, proposed_slots := [("a1", "b1")] }

/-- Claim C6: the create endpoint only validates duration (and mode and
round); it accepts and persists an interview with zero proposed slots,
with six proposed slots, and with a slot whose end_time precedes its
start_time, while an out-of-range duration is indeed rejected.  The
evaluation below runs the embedded endpoint at those failing inputs. -/
theorem C6_validation_gap :
    validateInterviewCreate zeroSlotCreate = true ∧
      ((resultDB (createInterviewDB baseDB zeroSlotCreate "int9" [] "t0" "admin")).bind
          fun d => (findInterview d.interviews "int9").map
            fun i => i.proposed_slots.length) = some 0 ∧
      validateInterviewCreate sixSlotCreate = true ∧
      ((resultDB (createInterviewDB baseDB sixSlotCreate "int9"
            ["s1", "s2", "s3", "s4", "s5", "s6"] "t0" "admin")).bind
          fun d => (findInterview d.interviews "int9").map
            fun i => i.proposed_slots.length) = some 6 ∧
      validateInterviewCreate reversedSlotCreate = true ∧
      ((resultDB (createInterviewDB baseDB reversedSlotCreate "int9" ["s1"] "t0"
            "admin")).bind
          fun d => (findInterview d.interviews "int9").map
            fun i => i.proposed_slots.map fun s => (s.start_time, s.end_time)) =
        some [("2025-01-20T11:00:00Z", "2025-01-20T10:00:00Z")] ∧
      validateInterviewCreate shortDurationCreate = false ∧
      resultErr (createInterviewDB baseDB shortDurationCreate "int9" ["s1"] "t0" "admin") =
        some .validationError := by
  decide

/-- Splitting a status count over a cons cell. -/
theorem countStatus_cons (i : Interview) (l : List Interview) (st : IStatus) :
    countStatus (i :: l) st =
      (if i.interview_status = st then 1 else 0) + countStatus l st := by
  simp only [countStatus, List.filter_cons]
  split
  · next h => simp_all [Nat.add_comm]
  · next h => simp_all

/-- The nine status groups partition the collection. -/
theorem countStatus_partition (l : List Interview) :
    countStatus l .draft + countStatus l .awaitingConfirmation +
        countStatus l .confirmed + countStatus l .scheduled +
        countStatus l .completed + countStatus l .noShow +
        countStatus l .cancelled + countStatus l .passed +
        countStatus l .failed = l.length := by
  induction l with
  | nil => simp [countStatus]
  | cons i l ih =>
    simp only [countStatus_cons, List.length_cons]
    cases h : i.interview_status <;> simp <;> omega

/-- Claim C8: the pipeline aggregation counts every interview into
total_interviews, statuses outside the dashboard set (Draft, Passed,
Failed) land in no named bucket, and consequently total_interviews is
always at least the sum of the six named buckets; the total equals the
number of interviews, so no status makes the aggregation fail. -/
theorem C8_pipeline_total (l : List Interview) :
    (pipelineStats l).total_interviews =
        (pipelineStats l).awaiting_confirmation + (pipelineStats l).confirmed +
          (pipelineStats l).scheduled + (pipelineStats l).completed +
          (pipelineStats l).no_shows + (pipelineStats l).cancelled +
          (countStatus l .draft + countStatus l .passed + countStatus l .failed) ∧
      (pipelineStats l).awaiting_confirmation + (pipelineStats l).confirmed +
          (pipelineStats l).scheduled + (pipelineStats l).completed +
          (pipelineStats l).no_shows + (pipelineStats l).cancelled ≤
        (pipelineStats l).total_interviews ∧
      (pipelineStats l).total_interviews = l.length := by
  refine ⟨?_, ?_, ?_⟩
  · simp only [pipelineStats]
    omega
  · simp only [pipelineStats]
    omega
  · simp only [pipelineStats]
    exact countStatus_partition l

/-! Generic facts about the Mongo-style first-match update. -/

/-- An element of the updated list is either an untouched element of the
original list or the image of the first match. -/
theorem mem_updateFirstBy {α : Type} {p : α → Bool} {f : α → α} {l : List α} {j : α}
    (h : j ∈ updateFirstBy p f l) :
    j ∈ l ∨ ∃ x, l.find? p = some x ∧ j = f x := by
  induction l with
  | nil => simp [updateFirstBy] at h
  | cons a rest ih =>
    by_cases hp : p a
    · simp only [updateFirstBy, if_pos hp, List.mem_cons] at h
      rcases h with h | h
      · exact Or.inr ⟨a, List.find?_cons_of_pos rest hp, h⟩
      · exact Or.inl (List.mem_cons_of_mem a h)
    · simp only [updateFirstBy, if_neg hp, List.mem_cons] at h
      rcases h with h | h
      · exact Or.inl (h ▸ List.mem_cons_self a rest)
      · rcases ih h with h2 | ⟨x, hx, hj⟩
        · exact Or.inl (List.mem_cons_of_mem a h2)
        · exact Or.inr ⟨x, by rw [List.find?_cons_of_neg rest hp]; exact hx, hj⟩

/-- The first-match update keeps the list length. -/
theorem length_updateFirstBy {α : Type} (p : α → Bool) (f : α → α) (l : List α) :
    (updateFirstBy p f l).length = l.length := by
  induction l with
  | nil => rfl
  | cons a rest ih =>
    by_cases hp : p a
    · simp [updateFirstBy, if_pos hp]
    · simp [updateFirstBy, if_neg hp, ih]

/-- Looking up the updated interview: when the update preserves the id,
the lookup returns the image of the previously found document. -/
theorem findInterview_updateInterviewIn (l : List Interview) (iid : String)
    (f : Interview → Interview) (hf : ∀ i, (f i).interview_id = i.interview_id) :
    findInterview (updateInterviewIn l iid f) iid = (findInterview l iid).map f := by
  induction l with
  | nil => rfl
  | cons a rest ih =>
    by_cases hp : a.interview_id = iid
    · simp [updateInterviewIn, updateFirstBy, findInterview, hp, hf]
    · simp only [updateInterviewIn, updateFirstBy, findInterview] at ih ⊢
      simp [hp, ih]

/-- Looking up the updated candidate: same as for interviews. -/
theorem findCandidate_updateCandidateIn (l : List Candidate) (cid : String)
    (g : Candidate → Candidate) (hg : ∀ c, (g c).candidate_id = c.candidate_id) :
    findCandidate (updateCandidateIn l cid g) cid = (findCandidate l cid).map g := by
  induction l with
  | nil => rfl
  | cons a rest ih =>
    by_cases hp : a.candidate_id = cid
    · simp [updateCandidateIn, updateFirstBy, findCandidate, hp, hg]
    · simp only [updateCandidateIn, updateFirstBy, findCandidate] at ih ⊢
      simp [hp, ih]

/-! Facts about slot lookup and slot claiming. -/

/-- With unique slot ids, the slot the booking loop finds is the only
slot carrying the requested id. -/
theorem findSlot_unique {slots : List Slot} (hn : (slots.map Slot.slot_id).Nodup)
    {sid : String} {s : Slot} (hs : findSlot slots sid = some s) :
    s ∈ slots ∧ s.slot_id = sid ∧ ∀ t ∈ slots, t.slot_id = sid → t = s := by
  have hs2 : List.find? (fun t => decide (t.slot_id = sid)) slots = some s := hs
  have hmem : s ∈ slots := List.mem_of_find?_eq_some hs2
  have hid : s.slot_id = sid := by simpa using List.find?_some hs2
  refine ⟨hmem, hid, fun t ht hts => ?_⟩
  exact List.inj_on_of_nodup_map hn ht hmem (by rw [hts, hid])

/-- With unique slot ids, a matching available slot makes the lookup
return exactly it. -/
theorem findSlot_of_mem {slots : List Slot} (hn : (slots.map Slot.slot_id).Nodup)
    {sid : String} {s : Slot} (hmem : s ∈ slots) (hid : s.slot_id = sid) :
    findSlot slots sid = some s := by
  cases h : findSlot slots sid with
  | none =>
    exact absurd (by simp [hid] : (fun t => decide (t.slot_id = sid)) s = true)
      (by simpa using List.find?_eq_none.mp h s hmem)
  | some s0 =>
    rw [(findSlot_unique hn h).2.2 s hmem hid]

/-- Claiming does not change the stored slot ids. -/
theorem claimSlots_ids (slots : List Slot) (sid : String) :
    (claimSlots slots sid).map Slot.slot_id = slots.map Slot.slot_id := by
  induction slots with
  | nil => rfl
  | cons a rest ih =>
    by_cases h : a.slot_id = sid <;> simp [claimSlots, h] <;>
      simpa [claimSlots] using ih

/-- Positional description of the claiming loop. -/
theorem claimSlots_getElem (slots : List Slot) (sid : String) (k : Nat) :
    (claimSlots slots sid)[k]? =
      (slots[k]?).map fun t =>
        if t.slot_id = sid then { t with is_available := false } else t := by
  simp [claimSlots, List.getElem?_map]

/-- Inversion of a successful booking: the guards held and the resulting
document is the written record. -/
theorem bookSlot_ok_inv {i : Interview} {sid : String} {conf : Bool} {now : String}
    {j : Interview} (hok : bookSlot i sid conf now = .ok j) :
    i.interview_status = .awaitingConfirmation ∧
      ∃ s, findSlot i.proposed_slots sid = some s ∧ s.is_available = true ∧
        j = { i with
          selected_slot_id := some sid
          scheduled_start_time := some s.start_time
          scheduled_end_time := some s.end_time
          interview_status := if conf then .confirmed else .awaitingConfirmation
          candidate_confirmation_timestamp := if conf then some now else none
          proposed_slots := claimSlots i.proposed_slots sid
          updated_at := now } := by
  unfold bookSlot at hok
  split at hok
  next hst =>
    split at hok
    next => cases hok
    next s hfs =>
      split at hok
      next hav => exact ⟨hst, s, hfs, hav, (Except.ok.inj hok).symm⟩
      next hav => cases hok
  next hst => cases hok

/-- A booking on available input succeeds with the written record. -/
theorem bookSlot_ok_eq (i : Interview) (sid : String) (conf : Bool) (now : String)
    (s : Slot) (hst : i.interview_status = .awaitingConfirmation)
    (hfs : findSlot i.proposed_slots sid = some s) (hav : s.is_available = true) :
    bookSlot i sid conf now = .ok { i with
      selected_slot_id := some sid
      scheduled_start_time := some s.start_time
      scheduled_end_time := some s.end_time
      interview_status := if conf then .confirmed else .awaitingConfirmation
      candidate_confirmation_timestamp := if conf then some now else none
      proposed_slots := claimSlots i.proposed_slots sid
      updated_at := now } := by
  unfold bookSlot
  rw [if_pos hst, hfs]
  simp [hav]

/-- A booking outside Awaiting Candidate Confirmation is rejected with the
current status in the error. -/
theorem bookSlot_not_awaiting (i : Interview) (sid : String) (conf : Bool) (now : String)
    (hst : ¬ i.interview_status = .awaitingConfirmation) :
    bookSlot i sid conf now = .error (.invalidStateTransition i.interview_status) := by
  unfold bookSlot
  rw [if_neg hst]

/-- Claim C2: booking succeeds exactly when the interview awaits candidate
confirmation and the requested slot exists among proposed_slots and is
still available; on success the chosen slot (the unique one carrying the
id) is flagged unavailable, every other slot is written back unchanged,
the selection is recorded and the slot times become the scheduled times;
when the interview is not awaiting confirmation the request fails with the
state-transition error carrying the current status. -/
theorem C2_book_contract (i : Interview) (sid : String) (conf : Bool) (now : String)
    (hn : (i.proposed_slots.map Slot.slot_id).Nodup) :
    ((∃ j, bookSlot i sid conf now = .ok j) ↔
        i.interview_status = .awaitingConfirmation ∧
          ∃ s ∈ i.proposed_slots, s.slot_id = sid ∧ s.is_available = true) ∧
      (∀ j s, bookSlot i sid conf now = .ok j → s ∈ i.proposed_slots → s.slot_id = sid →
        j.selected_slot_id = some sid ∧
          j.scheduled_start_time = some s.start_time ∧
          j.scheduled_end_time = some s.end_time ∧
          j.proposed_slots.length = i.proposed_slots.length ∧
          ∀ (k : Nat) (t : Slot), i.proposed_slots[k]? = some t →
            j.proposed_slots[k]? =
              some (if t.slot_id = sid then { t with is_available := false } else t)) ∧
      (¬ i.interview_status = .awaitingConfirmation →
        bookSlot i sid conf now = .error (.invalidStateTransition i.interview_status)) := by
  refine ⟨⟨?_, ?_⟩, ?_, fun hst => bookSlot_not_awaiting i sid conf now hst⟩
  · rintro ⟨j, hj⟩
    obtain ⟨hst, s, hfs, hav, _⟩ := bookSlot_ok_inv hj
    obtain ⟨hmem, hid, _⟩ := findSlot_unique hn hfs
    exact ⟨hst, s, hmem, hid, hav⟩
  · rintro ⟨hst, s, hmem, hid, hav⟩
    exact ⟨_, bookSlot_ok_eq i sid conf now s hst (findSlot_of_mem hn hmem hid) hav⟩
  · intro j s hj hmem hid
    obtain ⟨hst, s0, hfs, hav, hjeq⟩ := bookSlot_ok_inv hj
    obtain ⟨_, _, huniq⟩ := findSlot_unique hn hfs
    have hss0 : s = s0 := huniq s hmem hid
    subst hss0
    subst hjeq
    refine ⟨rfl, rfl, rfl, ?_, ?_⟩
    · simp [claimSlots]
    · intro k t hkt
      simp [claimSlots_getElem, hkt]

/-- The concrete two-slot interview as persisted by the create fixture. -/
def roundTripInterview : Interview :=
  match findInterview dbCreated.interviews "int1" with
  | some i => i
  | none => { interview_id := "int1", job_id := "job1", candidate_id := "c1",
              client_id := "cl1" }

/-- Witness for C2: the contract evaluated on the concrete created
interview and its first slot. -/
theorem C2_book_contract_witness :
    ((roundTripInterview.proposed_slots.map Slot.slot_id).Nodup) ∧
      ((∃ j, bookSlot roundTripInterview "slot_a" true "t1" = .ok j) ↔
        roundTripInterview.interview_status = .awaitingConfirmation ∧
          ∃ s ∈ roundTripInterview.proposed_slots, s.slot_id = "slot_a" ∧
            s.is_available = true) := by
  refine ⟨by decide, ?_⟩
  exact (C2_book_contract roundTripInterview "slot_a" true "t1" (by decide)).1

/-! Slot-claim invariant machinery for the booking engine. -/

def slotIdsOf (i : Interview) : List String := i.proposed_slots.map Slot.slot_id

/-- The inductive per-interview invariant of the slot registry: slot ids
are unique, an interview still awaiting confirmation has only available
slots, at most one slot is claimed, and a claimed slot is the recorded
selection with its start time as the scheduled start. -/
def GoodSlots (i : Interview) : Prop :=
  (slotIdsOf i).Nodup ∧
    (i.interview_status = .awaitingConfirmation →
      ∀ s ∈ i.proposed_slots, s.is_available = true) ∧
    unavailableCount i ≤ 1 ∧
    ∀ s ∈ i.proposed_slots, s.is_available = false →
      i.selected_slot_id = some s.slot_id ∧ i.scheduled_start_time = some s.start_time

instance (i : Interview) : Decidable (GoodSlots i) := by
  unfold GoodSlots
  infer_instance

/-- A command that books only with confirmed = true. -/
def confirmedCmd : Command → Bool
  | .book _ _ conf _ => conf
  | _ => true

/-- A command sequence whose bookings all confirm. -/
def confirmedOnly (cmds : List Command) : Bool := cmds.all confirmedCmd

theorem findInterview_mem {l : List Interview} {iid : String} {i : Interview}
    (h : findInterview l iid = some i) : i ∈ l := by
  have h2 : List.find? (fun x => decide (x.interview_id = iid)) l = some i := h
  exact List.mem_of_find?_eq_some h2

theorem claimSlots_eq_of_no_match {slots : List Slot} {sid : String}
    (h : ∀ s ∈ slots, ¬ s.slot_id = sid) : claimSlots slots sid = slots := by
  induction slots with
  | nil => rfl
  | cons a l ih =>
    have ha : ¬ a.slot_id = sid := h a (List.mem_cons_self a l)
    have hl := ih fun s hs => h s (List.mem_cons_of_mem a hs)
    simp only [claimSlots] at hl ⊢
    simp [ha, hl]

theorem filter_unavail_nil {slots : List Slot}
    (h : ∀ s ∈ slots, s.is_available = true) :
    (slots.filter fun s => !s.is_available) = [] := by
  induction slots with
  | nil => rfl
  | cons a l ih =>
    have ha : a.is_available = true := h a (List.mem_cons_self a l)
    have hl := ih fun s hs => h s (List.mem_cons_of_mem a hs)
    simp [List.filter_cons, ha, hl]

theorem unavailableCount_claim_le_one {slots : List Slot} {sid : String}
    (hn : (slots.map Slot.slot_id).Nodup)
    (hav : ∀ s ∈ slots, s.is_available = true) :
    ((claimSlots slots sid).filter fun s => !s.is_available).length ≤ 1 := by
  induction slots with
  | nil => simp [claimSlots]
  | cons a l ih =>
    have hal : ∀ s ∈ l, s.is_available = true :=
      fun s hs => hav s (List.mem_cons_of_mem a hs)
    have hnl : (l.map Slot.slot_id).Nodup := (List.nodup_cons.mp (by simpa using hn)).2
    by_cases hmatch : a.slot_id = sid
    · have hnomatch : ∀ s ∈ l, ¬ s.slot_id = sid := by
        intro s hs hssid
        exact (List.nodup_cons.mp (by simpa using hn)).1
          (hmatch ▸ hssid ▸ List.mem_map_of_mem Slot.slot_id hs)
      have hclaim : claimSlots (a :: l) sid = { a with is_available := false } :: l := by
        have hl : claimSlots l sid = l := claimSlots_eq_of_no_match hnomatch
        simp only [claimSlots] at hl ⊢
        rw [List.map_cons, if_pos hmatch, hl]
      rw [hclaim]
      simp [List.filter_cons, filter_unavail_nil hal]
    · have ha : a.is_available = true := hav a (List.mem_cons_self a l)
      have := ih hnl hal
      simp only [claimSlots] at this ⊢
      simpa [List.filter_cons, hmatch, ha] using this

theorem mem_claimSlots {slots : List Slot} {sid : String} {t : Slot}
    (h : t ∈ claimSlots slots sid) :
    ∃ u ∈ slots, t = if u.slot_id = sid then { u with is_available := false } else u := by
  obtain ⟨u, hu, ht⟩ := List.mem_map.mp h
  exact ⟨u, hu, ht.symm⟩

/-- The invariant survives any update that keeps the slots, the selection
and the schedule, and never moves a status back to awaiting. -/
theorem GoodSlots_frame {i j : Interview}
    (hslots : j.proposed_slots = i.proposed_slots)
    (hsel : j.selected_slot_id = i.selected_slot_id)
    (hsch : j.scheduled_start_time = i.scheduled_start_time)
    (hstat : j.interview_status = .awaitingConfirmation →
      i.interview_status = .awaitingConfirmation)
    (h : GoodSlots i) : GoodSlots j := by
  obtain ⟨hn, h1, h2, h3⟩ := h
  refine ⟨?_, ?_, ?_, ?_⟩
  · simpa [slotIdsOf, hslots] using hn
  · intro hj s hs
    exact h1 (hstat hj) s (hslots ▸ hs)
  · simpa [unavailableCount, hslots] using h2
  · intro s hs hsa
    rw [hsel, hsch]
    exact h3 s (hslots ▸ hs) hsa

/-- The invariant survives a confirmed booking. -/
theorem GoodSlots_book {i j : Interview} {sid now : String}
    (hok : bookSlot i sid true now = .ok j) (h : GoodSlots i) : GoodSlots j := by
  obtain ⟨hn, h1, _, _⟩ := h
  obtain ⟨hst, s0, hfs, hav, hjeq⟩ := bookSlot_ok_inv hok
  have hnids : (i.proposed_slots.map Slot.slot_id).Nodup := hn
  have hall : ∀ s ∈ i.proposed_slots, s.is_available = true := h1 hst
  obtain ⟨hmem0, hid0, huniq⟩ := findSlot_unique hnids hfs
  subst hjeq
  refine ⟨?_, ?_, ?_, ?_⟩
  · simpa [slotIdsOf, claimSlots_ids] using hn
  · intro hj
    simp at hj
  · simpa [unavailableCount] using unavailableCount_claim_le_one hnids hall
  · intro s hs hsa
    obtain ⟨u, hu, hdef⟩ := mem_claimSlots hs
    by_cases huid : u.slot_id = sid
    · have hus0 : u = s0 := huniq u hu huid
      subst hus0
      rw [if_pos huid] at hdef
      subst hdef
      exact ⟨by simp [huid], by simp⟩
    · rw [if_neg huid] at hdef
      subst hdef
      simp [hall s hu] at hsa

theorem GoodSlots_sendInviteUpd (i : Interview) (req : Option SendInterviewInviteRequest)
    (cal : Option CalendarResult) (sender now : String) (h : GoodSlots i) :
    GoodSlots (sendInviteUpd i req cal sender now) := by
  refine GoodSlots_frame ?_ ?_ ?_ ?_ h
  · rfl
  · rfl
  · rfl
  · intro hj
    by_cases h2 : i.interview_status = .confirmed
    · simp [sendInviteUpd, h2] at hj
    · simpa [sendInviteUpd, h2] using hj

/-- One confirmed-only command preserves the invariant on every interview
of the database. -/
theorem step_preserves_GoodSlots {db db2 : DB} {c : Command}
    (hc : confirmedCmd c = true)
    (h : ∀ i ∈ db.interviews, GoodSlots i)
    (hs : step db c = .ok db2) :
    ∀ j ∈ db2.interviews, GoodSlots j := by
  have frameNotAwaiting : ∀ {x y : Interview},
      y.proposed_slots = x.proposed_slots →
      y.selected_slot_id = x.selected_slot_id →
      y.scheduled_start_time = x.scheduled_start_time →
      ¬ y.interview_status = .awaitingConfirmation →
      GoodSlots x → GoodSlots y := by
    intro x y hsl hse hsc hns hx
    exact GoodSlots_frame hsl hse hsc (fun hj => absurd hj hns) hx
  cases c with
  | book iid sid conf now =>
    have hconf : conf = true := hc
    subst hconf
    simp only [step] at hs
    unfold bookSlotDB at hs
    split at hs
    next => cases hs
    next i hfi =>
      split at hs
      next e hbook => cases hs
      next jj hbook =>
        cases hs
        intro j hj
        rcases mem_updateFirstBy hj with hmem | ⟨x, hx, hjx⟩
        · exact h j hmem
        · have hxi : x = i := by
            have hx2 : findInterview db.interviews iid = some x := hx
            rw [hfi] at hx2
            exact (Option.some.inj hx2).symm
          subst hxi
          subst hjx
          exact GoodSlots_book hbook (h x (findInterview_mem hfi))
  | publicBook iid sid now =>
    simp only [step] at hs
    unfold publicBookDB at hs
    split at hs
    next => cases hs
    next i hfi =>
      split at hs
      next e hbook => cases hs
      next jj hbook =>
        cases hs
        intro j hj
        rcases mem_updateFirstBy hj with hmem | ⟨x, hx, hjx⟩
        · exact h j hmem
        · have hxi : x = i := by
            have hx2 : findInterview db.interviews iid = some x := hx
            rw [hfi] at hx2
            exact (Option.some.inj hx2).symm
          subst hxi
          subst hjx
          exact GoodSlots_book hbook (h x (findInterview_mem hfi))
  | sendInvite iid req cal sender now =>
    simp only [step] at hs
    unfold sendInviteDB at hs
    split at hs
    next => cases hs
    next i hfi =>
      split at hs
      next => cases hs
      next cand hfc =>
        split at hs
        next => cases hs
        next em hem =>
          split at hs
          next => cases hs
          next jb hjb =>
            split at hs
            next => cases hs
            next cl hcl =>
              cases hs
              intro j hj
              rcases mem_updateFirstBy hj with hmem | ⟨x, hx, hjx⟩
              · exact h j hmem
              · have hxi : x = i := by
                  have hx2 : findInterview db.interviews iid = some x := hx
                  rw [hfi] at hx2
                  exact (Option.some.inj hx2).symm
                subst hxi
                subst hjx
                exact GoodSlots_sendInviteUpd x req cal sender now
                  (h x (findInterview_mem hfi))
  | markCompleted iid now =>
    simp only [step] at hs
    unfold markCompletedDB at hs
    split at hs
    next => cases hs
    next i hfi =>
      cases hs
      intro j hj
      rcases mem_updateFirstBy hj with hmem | ⟨x, hx, hjx⟩
      · exact h j hmem
      · subst hjx
        refine frameNotAwaiting ?_ ?_ ?_ ?_ (h x (List.mem_of_find?_eq_some hx))
        · rfl
        · rfl
        · rfl
        · simp
  | markNoShow iid now =>
    simp only [step] at hs
    unfold markNoShowDB at hs
    split at hs
    next => cases hs
    next i hfi =>
      cases hs
      intro j hj
      rcases mem_updateFirstBy hj with hmem | ⟨x, hx, hjx⟩
      · exact h j hmem
      · subst hjx
        refine frameNotAwaiting ?_ ?_ ?_ ?_ (h x (List.mem_of_find?_eq_some hx))
        · rfl
        · rfl
        · rfl
        · simp
  | cancel iid now =>
    simp only [step] at hs
    unfold cancelDB at hs
    split at hs
    next => cases hs
    next i hfi =>
      cases hs
      intro j hj
      rcases mem_updateFirstBy hj with hmem | ⟨x, hx, hjx⟩
      · exact h j hmem
      · subst hjx
        refine frameNotAwaiting ?_ ?_ ?_ ?_ (h x (List.mem_of_find?_eq_some hx))
        · rfl
        · rfl
        · rfl
        · simp
  | moveToNextRound iid req sender now =>
    simp only [step] at hs
    unfold moveToNextRoundDB at hs
    split at hs
    next => cases hs
    next i hfi =>
      split at hs
      next hguard =>
        cases hs
        intro j hj
        rcases mem_updateFirstBy hj with hmem | ⟨x, hx, hjx⟩
        · exact h j hmem
        · subst hjx
          refine frameNotAwaiting ?_ ?_ ?_ ?_ (h x (List.mem_of_find?_eq_some hx))
          · rfl
          · rfl
          · rfl
          · simp
      next => cases hs
  | reject iid req sender now =>
    simp only [step] at hs
    unfold rejectDB at hs
    split at hs
    next => cases hs
    next i hfi =>
      cases hs
      intro j hj
      rcases mem_updateFirstBy hj with hmem | ⟨x, hx, hjx⟩
      · exact h j hmem
      · subst hjx
        refine frameNotAwaiting ?_ ?_ ?_ ?_ (h x (List.mem_of_find?_eq_some hx))
        · rfl
        · rfl
        · rfl
        · simp
  | initiateHiring iid req sender now =>
    simp only [step] at hs
    unfold initiateHiringDB at hs
    split at hs
    next => cases hs
    next i hfi =>
      cases hs
      intro j hj
      rcases mem_updateFirstBy hj with hmem | ⟨x, hx, hjx⟩
      · exact h j hmem
      · subst hjx
        refine frameNotAwaiting ?_ ?_ ?_ ?_ (h x (List.mem_of_find?_eq_some hx))
        · rfl
        · rfl
        · rfl
        · simp

/-- A whole confirmed-only command sequence preserves the invariant. -/
theorem run_preserves_GoodSlots (cmds : List Command) :
    ∀ db : DB, confirmedOnly cmds = true →
      (∀ i ∈ db.interviews, GoodSlots i) →
      ∀ j ∈ (run db cmds).interviews, GoodSlots j := by
  induction cmds with
  | nil =>
    intro db _ h
    simpa [run] using h
  | cons c cs ih =>
    intro db hconf h
    have hc1 : confirmedCmd c = true := by
      simp only [confirmedOnly, List.all_cons, Bool.and_eq_true] at hconf
      exact hconf.1
    have hc2 : confirmedOnly cs = true := by
      simp only [confirmedOnly, List.all_cons, Bool.and_eq_true] at hconf
      exact hconf.2
    cases hstep : step db c with
    | ok db2 =>
      have hrw : run db (c :: cs) = run db2 cs := by simp [run, hstep]
      rw [hrw]
      exact ih db2 hc2 (step_preserves_GoodSlots hc1 h hstep)
    | error e =>
      have hrw : run db (c :: cs) = run db cs := by simp [run, hstep]
      rw [hrw]
      exact ih db hc2 h

/-- Claim C1 (amended): the invariant holds on every reachable state
provided every successful booking confirms.  Starting from any database
whose interviews have unique slot ids, only available slots while
awaiting confirmation, and a consistent selection (in particular any set
of freshly created interviews), every command sequence whose book
commands all carry confirmed = true leads to states where each interview
has at most one claimed slot, and a claimed slot is referenced by
selected_slot_id with scheduled_start_time equal to its start_time.
Without the confirmed = true restriction the property fails, see the
counterexample. -/
theorem C1_amended_slot_invariant (db : DB) (cmds : List Command)
    (hconf : confirmedOnly cmds = true)
    (h : ∀ i ∈ db.interviews, GoodSlots i) :
    ∀ j ∈ (run db cmds).interviews,
      unavailableCount j ≤ 1 ∧
        ∀ s ∈ j.proposed_slots, s.is_available = false →
          j.selected_slot_id = some s.slot_id ∧
            j.scheduled_start_time = some s.start_time := by
  intro j hj
  obtain ⟨_, _, h2, h3⟩ := run_preserves_GoodSlots cmds db hconf h j hj
  exact ⟨h2, h3⟩

/-- Witness for C1 (amended): the invariant evaluated after a concrete
confirmed booking on the created two-slot interview. -/
theorem C1_amended_slot_invariant_witness :
    confirmedOnly [Command.book "int1" "slot_a" true "t1"] = true ∧
      (∀ i ∈ dbCreated.interviews, GoodSlots i) ∧
      ∀ j ∈ (run dbCreated [Command.book "int1" "slot_a" true "t1"]).interviews,
        unavailableCount j ≤ 1 ∧
          ∀ s ∈ j.proposed_slots, s.is_available = false →
            j.selected_slot_id = some s.slot_id ∧
              j.scheduled_start_time = some s.start_time :=
  ⟨by decide, by decide,
    C1_amended_slot_invariant dbCreated [Command.book "int1" "slot_a" true "t1"]
      (by decide) (by decide)⟩

/-- Claim C3 (amended): the transition table is not enforced by
mark-completed: the endpoint succeeds on an existing interview in every
status and unconditionally stamps it Completed, so status-changing pairs
outside the table of spec section 4.1 - such as Awaiting Candidate
Confirmation directly to Completed - do occur. -/
theorem C3_amended_mark_completed (db : DB) (iid now : String) (i : Interview)
    (hfi : findInterview db.interviews iid = some i) :
    ∃ db2, markCompletedDB db iid now = .ok db2 ∧
      (findInterview db2.interviews iid).map Interview.interview_status =
        some .completed := by
  refine ⟨{ db with interviews := updateInterviewIn db.interviews iid fun j =>
      { j with interview_status := .completed, updated_at := now } }, ?_, ?_⟩
  · unfold markCompletedDB
    rw [hfi]
  · have hupd := findInterview_updateInterviewIn db.interviews iid
      (fun j => { j with interview_status := .completed, updated_at := now })
      (fun _ => rfl)
    simp [hupd, hfi]

/-- Witness for C3 (amended): mark-completed applied to the concrete
awaiting interview. -/
theorem C3_amended_mark_completed_witness :
    findInterview dbCreated.interviews "int1" = some roundTripInterview ∧
      ∃ db2, markCompletedDB dbCreated "int1" "t1" = .ok db2 ∧
        (findInterview db2.interviews "int1").map Interview.interview_status =
          some .completed :=
  ⟨by decide, C3_amended_mark_completed dbCreated "int1" "t1" roundTripInterview
    (by decide)⟩

/-! No-show ledger machinery. -/

/-- The spec-side aggregate (spec section 8): the sum of no_show_count
over all interviews of one candidate. -/
def noShowSum : List Interview → String → Nat
  | [], _ => 0
  | i :: rest, cid =>
    (if i.candidate_id = cid then i.no_show_count else 0) + noShowSum rest cid

/-- The claimed ledger consistency: every candidate record aggregates
exactly the no-show counts of its interviews. -/
def NoShowConsistent (db : DB) : Prop :=
  ∀ c ∈ db.candidates, c.no_show_count = noShowSum db.interviews c.candidate_id

instance (db : DB) : Decidable (NoShowConsistent db) := by
  unfold NoShowConsistent
  infer_instance

theorem findInterview_cons_pos {a : Interview} {rest : List Interview} {iid : String}
    (hp : a.interview_id = iid) : findInterview (a :: rest) iid = some a := by
  simp [findInterview, hp]

theorem findInterview_cons_neg {a : Interview} {rest : List Interview} {iid : String}
    (hp : ¬ a.interview_id = iid) :
    findInterview (a :: rest) iid = findInterview rest iid := by
  simp [findInterview, hp]

theorem updateInterviewIn_cons_pos {a : Interview} {rest : List Interview} {iid : String}
    {f : Interview → Interview} (hp : a.interview_id = iid) :
    updateInterviewIn (a :: rest) iid f = f a :: rest := by
  simp [updateInterviewIn, updateFirstBy, hp]

theorem updateInterviewIn_cons_neg {a : Interview} {rest : List Interview} {iid : String}
    {f : Interview → Interview} (hp : ¬ a.interview_id = iid) :
    updateInterviewIn (a :: rest) iid f = a :: updateInterviewIn rest iid f := by
  simp [updateInterviewIn, updateFirstBy, hp]

theorem updateCandidateIn_cons_pos {a : Candidate} {rest : List Candidate} {cid : String}
    {g : Candidate → Candidate} (hp : a.candidate_id = cid) :
    updateCandidateIn (a :: rest) cid g = g a :: rest := by
  simp [updateCandidateIn, updateFirstBy, hp]

theorem updateCandidateIn_cons_neg {a : Candidate} {rest : List Candidate} {cid : String}
    {g : Candidate → Candidate} (hp : ¬ a.candidate_id = cid) :
    updateCandidateIn (a :: rest) cid g = a :: updateCandidateIn rest cid g := by
  simp [updateCandidateIn, updateFirstBy, hp]

/-- How an update of the first interview with a given id moves the
per-candidate aggregate: only the contribution of the updated document
changes. -/
theorem noShowSum_updateInterviewIn (l : List Interview) (iid : String) (x : Interview)
    (f : Interview → Interview) (hfind : findInterview l iid = some x)
    (hcid : (f x).candidate_id = x.candidate_id) (cid : String) :
    noShowSum (updateInterviewIn l iid f) cid +
        (if x.candidate_id = cid then x.no_show_count else 0) =
      noShowSum l cid + (if x.candidate_id = cid then (f x).no_show_count else 0) := by
  induction l with
  | nil => cases hfind
  | cons a rest ih =>
    by_cases hp : a.interview_id = iid
    · have hxa : x = a := by
        have h2 : findInterview (a :: rest) iid = some a := findInterview_cons_pos hp
        rw [hfind] at h2
        exact Option.some.inj h2
      subst hxa
      rw [updateInterviewIn_cons_pos hp]
      simp only [noShowSum, hcid]
      by_cases hc : x.candidate_id = cid
      · simp only [hc, if_pos rfl]
        omega
      · simp [if_neg hc]
    · have hfind2 : findInterview rest iid = some x := by
        rw [← findInterview_cons_neg hp]
        exact hfind
      have := ih hfind2
      rw [updateInterviewIn_cons_neg hp]
      simp only [noShowSum]
      omega

/-- When the update touches neither candidate_id nor no_show_count the
aggregates are untouched. -/
theorem noShowSum_updateInterviewIn_frame (l : List Interview) (iid : String)
    (x : Interview) (f : Interview → Interview)
    (hfind : findInterview l iid = some x)
    (hcid : (f x).candidate_id = x.candidate_id)
    (hcount : (f x).no_show_count = x.no_show_count) (cid : String) :
    noShowSum (updateInterviewIn l iid f) cid = noShowSum l cid := by
  have := noShowSum_updateInterviewIn l iid x f hfind hcid cid
  rw [hcount] at this
  omega

/-- Candidate-list invariant transfer for an update of the first matching
candidate, in terms of the aggregates before (S) and after (S2). -/
theorem updateCandidateIn_inv (cid : String) (g : Candidate → Candidate)
    (hgid : ∀ c, (g c).candidate_id = c.candidate_id)
    (S S2 : String → Nat) (hS2 : ∀ z, ¬ z = cid → S2 z = S z) :
    ∀ cs : List Candidate, (cs.map Candidate.candidate_id).Nodup →
      (∀ c ∈ cs, c.no_show_count = S c.candidate_id) →
      (∀ c ∈ cs, c.candidate_id = cid → (g c).no_show_count = S2 cid) →
      ∀ c ∈ updateCandidateIn cs cid g, c.no_show_count = S2 c.candidate_id := by
  intro cs
  induction cs with
  | nil =>
    intro _ _ _ c hc
    simp [updateCandidateIn, updateFirstBy] at hc
  | cons a rest ih =>
    intro hnodup hinv hcount c hc
    by_cases hp : a.candidate_id = cid
    · rw [updateCandidateIn_cons_pos hp] at hc
      rcases List.mem_cons.mp hc with hga | hcrest
      · subst hga
        rw [hgid a, hp]
        exact hcount a (List.mem_cons_self a rest) hp
      · have hcid_ne : ¬ c.candidate_id = cid := by
          intro hccid
          exact (List.nodup_cons.mp (by simpa using hnodup)).1
            (hp ▸ hccid ▸ List.mem_map_of_mem Candidate.candidate_id hcrest)
        rw [hS2 _ hcid_ne]
        exact hinv c (List.mem_cons_of_mem a hcrest)
    · rw [updateCandidateIn_cons_neg hp] at hc
      rcases List.mem_cons.mp hc with hca | hcrest
      · subst hca
        rw [hS2 _ hp]
        exact hinv c (List.mem_cons_self c rest)
      · exact ih (List.nodup_cons.mp (by simpa using hnodup)).2
          (fun d hd => hinv d (List.mem_cons_of_mem a hd))
          (fun d hd => hcount d (List.mem_cons_of_mem a hd)) c hcrest

/-- A candidate update that keeps id and count keeps the invariant, with
no uniqueness assumption. -/
theorem updateCandidateIn_inv_frame (cid : String) (g : Candidate → Candidate)
    (hgid : ∀ c, (g c).candidate_id = c.candidate_id)
    (hgcount : ∀ c, (g c).no_show_count = c.no_show_count) (S : String → Nat) :
    ∀ cs : List Candidate, (∀ c ∈ cs, c.no_show_count = S c.candidate_id) →
      ∀ c ∈ updateCandidateIn cs cid g, c.no_show_count = S c.candidate_id := by
  intro cs
  induction cs with
  | nil =>
    intro _ c hc
    simp [updateCandidateIn, updateFirstBy] at hc
  | cons a rest ih =>
    intro hinv c hc
    by_cases hp : a.candidate_id = cid
    · rw [updateCandidateIn_cons_pos hp] at hc
      rcases List.mem_cons.mp hc with hga | hcrest
      · subst hga
        rw [hgid a, hgcount a]
        exact hinv a (List.mem_cons_self a rest)
      · exact hinv c (List.mem_cons_of_mem a hcrest)
    · rw [updateCandidateIn_cons_neg hp] at hc
      rcases List.mem_cons.mp hc with hca | hcrest
      · subst hca
        exact hinv c (List.mem_cons_self c rest)
      · exact ih (fun d hd => hinv d (List.mem_cons_of_mem a hd)) c hcrest

/-- Updating a candidate in place keeps the id column. -/
theorem map_cid_updateCandidateIn (cid : String) (g : Candidate → Candidate)
    (hgid : ∀ c, (g c).candidate_id = c.candidate_id) :
    ∀ cs : List Candidate,
      (updateCandidateIn cs cid g).map Candidate.candidate_id =
        cs.map Candidate.candidate_id := by
  intro cs
  induction cs with
  | nil => rfl
  | cons a rest ih =>
    by_cases hp : a.candidate_id = cid
    · rw [updateCandidateIn_cons_pos hp]
      simp [hgid a]
    · rw [updateCandidateIn_cons_neg hp]
      simp [ih]

/-- Uniqueness of candidate ids survives an id-preserving update. -/
theorem nodup_cid_updateCandidateIn (cs : List Candidate) (cid : String)
    (g : Candidate → Candidate) (hgid : ∀ c, (g c).candidate_id = c.candidate_id)
    (hn : (cs.map Candidate.candidate_id).Nodup) :
    ((updateCandidateIn cs cid g).map Candidate.candidate_id).Nodup := by
  rw [map_cid_updateCandidateIn cid g hgid cs]
  exact hn

/-- Ledger consistency survives an interview update that does not touch
the candidate link or count. -/
theorem noShow_frame_step {db : DB} {iid : String} {x : Interview}
    (hfind : findInterview db.interviews iid = some x)
    (f : Interview → Interview)
    (hcid : (f x).candidate_id = x.candidate_id)
    (hcount : (f x).no_show_count = x.no_show_count)
    (hinv : NoShowConsistent db) :
    NoShowConsistent { db with interviews := updateInterviewIn db.interviews iid f } := by
  intro c hc
  show c.no_show_count = noShowSum (updateInterviewIn db.interviews iid f) c.candidate_id
  rw [noShowSum_updateInterviewIn_frame db.interviews iid x f hfind hcid hcount]
  exact hinv c hc

/-- Ledger consistency survives the combination of such an interview
update with a candidate update that does not touch counts. -/
theorem noShow_frame_step2 {db : DB} {iid : String} {x : Interview}
    (hfind : findInterview db.interviews iid = some x)
    (f : Interview → Interview)
    (hcid : (f x).candidate_id = x.candidate_id)
    (hcount : (f x).no_show_count = x.no_show_count)
    (cid2 : String) (g : Candidate → Candidate)
    (hgid : ∀ c, (g c).candidate_id = c.candidate_id)
    (hgcount : ∀ c, (g c).no_show_count = c.no_show_count)
    (hinv : NoShowConsistent db) :
    NoShowConsistent { db with
      interviews := updateInterviewIn db.interviews iid f
      candidates := updateCandidateIn db.candidates cid2 g } := by
  intro c hc
  show c.no_show_count = noShowSum (updateInterviewIn db.interviews iid f) c.candidate_id
  rw [noShowSum_updateInterviewIn_frame db.interviews iid x f hfind hcid hcount]
  exact updateCandidateIn_inv_frame cid2 g hgid hgcount
    (noShowSum db.interviews) db.candidates hinv c hc

/-- The mark-no-show endpoint itself keeps the ledger consistent: the
interview count and the candidate aggregate move together by one. -/
theorem noShow_mark_step {db db2 : DB} {iid now : String}
    (hnodup : (db.candidates.map Candidate.candidate_id).Nodup)
    (hinv : NoShowConsistent db)
    (hs : markNoShowDB db iid now = .ok db2) :
    NoShowConsistent db2 := by
  unfold markNoShowDB at hs
  split at hs
  next => cases hs
  next i hfi =>
    cases hs
    intro c hc
    have hsum := noShowSum_updateInterviewIn db.interviews iid i
      (fun j => { j with
        interview_status := .noShow
        no_show_flag := true
        no_show_count := i.no_show_count + 1
        updated_at := now }) hfi rfl
    have hS2 : ∀ z, ¬ z = i.candidate_id →
        noShowSum (updateInterviewIn db.interviews iid fun j =>
          { j with
            interview_status := .noShow
            no_show_flag := true
            no_show_count := i.no_show_count + 1
            updated_at := now }) z = noShowSum db.interviews z := by
      intro z hz
      have h3 := hsum z
      have hz2 : ¬ i.candidate_id = z := fun h => hz h.symm
      rw [if_neg hz2, if_neg hz2] at h3
      omega
    have hScid :
        noShowSum (updateInterviewIn db.interviews iid fun j =>
          { j with
            interview_status := .noShow
            no_show_flag := true
            no_show_count := i.no_show_count + 1
            updated_at := now }) i.candidate_id =
          noShowSum db.interviews i.candidate_id + 1 := by
      have h3 := hsum i.candidate_id
      simp at h3
      omega
    refine updateCandidateIn_inv i.candidate_id
      (fun c => { c with no_show_count := c.no_show_count + 1 })
      (fun _ => rfl) (noShowSum db.interviews) _ hS2 db.candidates hnodup hinv ?_ c hc
    intro d hd hdid
    rw [hScid]
    show d.no_show_count + 1 = noShowSum db.interviews i.candidate_id + 1
    rw [hinv d hd, hdid]

/-- One command preserves candidate-id uniqueness and ledger consistency. -/
theorem step_preserves_noShow {db db2 : DB} {c : Command}
    (hnodup : (db.candidates.map Candidate.candidate_id).Nodup)
    (hinv : NoShowConsistent db)
    (hs : step db c = .ok db2) :
    (db2.candidates.map Candidate.candidate_id).Nodup ∧ NoShowConsistent db2 := by
  cases c with
  | book iid sid conf now =>
    simp only [step] at hs
    unfold bookSlotDB at hs
    split at hs
    next => cases hs
    next i hfi =>
      split at hs
      next e hbook => cases hs
      next jj hbook =>
        cases hs
        obtain ⟨_, s0, _, _, hjeq⟩ := bookSlot_ok_inv hbook
        subst hjeq
        exact ⟨hnodup, noShow_frame_step hfi _ rfl rfl hinv⟩
  | publicBook iid sid now =>
    simp only [step] at hs
    unfold publicBookDB at hs
    split at hs
    next => cases hs
    next i hfi =>
      split at hs
      next e hbook => cases hs
      next jj hbook =>
        cases hs
        obtain ⟨_, s0, _, _, hjeq⟩ := bookSlot_ok_inv hbook
        subst hjeq
        exact ⟨hnodup, noShow_frame_step hfi _ rfl rfl hinv⟩
  | sendInvite iid req cal sender now =>
    simp only [step] at hs
    unfold sendInviteDB at hs
    split at hs
    next => cases hs
    next i hfi =>
      split at hs
      next => cases hs
      next cand hfc =>
        split at hs
        next => cases hs
        next em hem =>
          split at hs
          next => cases hs
          next jb hjb =>
            split at hs
            next => cases hs
            next cl hcl =>
              cases hs
              exact ⟨hnodup, noShow_frame_step hfi _ rfl rfl hinv⟩
  | markCompleted iid now =>
    simp only [step] at hs
    unfold markCompletedDB at hs
    split at hs
    next => cases hs
    next i hfi =>
      cases hs
      exact ⟨hnodup, noShow_frame_step hfi _ rfl rfl hinv⟩
  | markNoShow iid now =>
    have hcons := noShow_mark_step hnodup hinv hs
    simp only [step] at hs
    unfold markNoShowDB at hs
    split at hs
    next => cases hs
    next i hfi =>
      cases hs
      refine ⟨?_, hcons⟩
      exact nodup_cid_updateCandidateIn db.candidates i.candidate_id _ (fun _ => rfl) hnodup
  | cancel iid now =>
    simp only [step] at hs
    unfold cancelDB at hs
    split at hs
    next => cases hs
    next i hfi =>
      cases hs
      exact ⟨hnodup, noShow_frame_step hfi _ rfl rfl hinv⟩
  | moveToNextRound iid req sender now =>
    simp only [step] at hs
    unfold moveToNextRoundDB at hs
    split at hs
    next => cases hs
    next i hfi =>
      split at hs
      next hguard =>
        cases hs
        refine ⟨?_, noShow_frame_step2 hfi _ rfl rfl i.candidate_id _
          (fun _ => rfl) (fun _ => rfl) hinv⟩
        exact nodup_cid_updateCandidateIn db.candidates i.candidate_id _ (fun _ => rfl) hnodup
      next => cases hs
  | reject iid req sender now =>
    simp only [step] at hs
    unfold rejectDB at hs
    split at hs
    next => cases hs
    next i hfi =>
      cases hs
      refine ⟨?_, noShow_frame_step2 hfi _ rfl rfl i.candidate_id _
        (fun _ => rfl) (fun _ => rfl) hinv⟩
      exact nodup_cid_updateCandidateIn db.candidates i.candidate_id _ (fun _ => rfl) hnodup
  | initiateHiring iid req sender now =>
    simp only [step] at hs
    unfold initiateHiringDB at hs
    split at hs
    next => cases hs
    next i hfi =>
      cases hs
      refine ⟨?_, noShow_frame_step2 hfi _ rfl rfl i.candidate_id _
        (fun _ => rfl) (fun _ => rfl) hinv⟩
      exact nodup_cid_updateCandidateIn db.candidates i.candidate_id _ (fun _ => rfl) hnodup

/-- Any command sequence preserves the ledger. -/
theorem run_preserves_noShow (cmds : List Command) :
    ∀ db : DB, (db.candidates.map Candidate.candidate_id).Nodup →
      NoShowConsistent db →
      NoShowConsistent (run db cmds) := by
  induction cmds with
  | nil =>
    intro db _ hinv
    simpa [run] using hinv
  | cons c cs ih =>
    intro db hnodup hinv
    cases hstep : step db c with
    | ok db2 =>
      have hrw : run db (c :: cs) = run db2 cs := by simp [run, hstep]
      rw [hrw]
      obtain ⟨hn2, hi2⟩ := step_preserves_noShow hnodup hinv hstep
      exact ih db2 hn2 hi2
    | error e =>
      have hrw : run db (c :: cs) = run db cs := by simp [run, hstep]
      rw [hrw]
      exact ih db hnodup hinv

/-- Claim C4 (amended): with unique candidate ids and an initially
consistent ledger, every reachable state keeps each candidate aggregate
equal to the sum of no_show_count over that candidate's interviews, and
every successful mark-no-show increments the interview count and the
candidate aggregate by exactly one.  The per-interview bound of 0 or 1
does not hold: repeated marks keep incrementing, see the counterexample. -/
theorem C4_amended_no_show_ledger (db : DB) (cmds : List Command)
    (hnodup : (db.candidates.map Candidate.candidate_id).Nodup)
    (hinv : NoShowConsistent db) :
    NoShowConsistent (run db cmds) ∧
      ∀ (iid now : String) (i : Interview),
        findInterview db.interviews iid = some i →
        ∃ db2, markNoShowDB db iid now = .ok db2 ∧
          (findInterview db2.interviews iid).map Interview.no_show_count =
            some (i.no_show_count + 1) ∧
          (findCandidate db2.candidates i.candidate_id).map Candidate.no_show_count =
            (findCandidate db.candidates i.candidate_id).map
              fun c => c.no_show_count + 1 := by
  refine ⟨run_preserves_noShow cmds db hnodup hinv, ?_⟩
  intro iid now i hfi
  refine ⟨{ db with
    interviews := updateInterviewIn db.interviews iid fun j =>
      { j with
        interview_status := .noShow
        no_show_flag := true
        no_show_count := i.no_show_count + 1
        updated_at := now }
    candidates := updateCandidateIn db.candidates i.candidate_id fun c =>
      { c with no_show_count := c.no_show_count + 1 } }, ?_, ?_, ?_⟩
  · unfold markNoShowDB
    rw [hfi]
  · have hupd := findInterview_updateInterviewIn db.interviews iid
      (fun j => { j with
        interview_status := .noShow
        no_show_flag := true
        no_show_count := i.no_show_count + 1
        updated_at := now }) (fun _ => rfl)
    simp [hupd, hfi]
  · have hupd := findCandidate_updateCandidateIn db.candidates i.candidate_id
      (fun c => { c with no_show_count := c.no_show_count + 1 }) (fun _ => rfl)
    simp only [hupd]
    cases findCandidate db.candidates i.candidate_id <;> simp

/-- Witness for C4 (amended): the ledger invariant and the increment
equations evaluated on the concrete created interview. -/
theorem C4_amended_no_show_ledger_witness :
    ((dbCreated.candidates.map Candidate.candidate_id).Nodup) ∧
      NoShowConsistent dbCreated ∧
      NoShowConsistent (run dbCreated [Command.markNoShow "int1" "t1"]) :=
  ⟨by decide, by decide,
    (C4_amended_no_show_ledger dbCreated [Command.markNoShow "int1" "t1"]
      (by decide) (by decide)).1⟩

/-- Claim C5 (amended): each successful move_to_next_round marks the
interview Passed and SETS candidate.current_round to that interview's
interview_round + 1 - an overwrite computed from the interview, not an
increment of the candidate's previous value - so current_round can
decrease when an earlier-round interview is passed later, see the
counterexample. -/
theorem C5_amended_move_sets_round (db : DB) (iid : String)
    (req : MoveToNextRoundRequest) (sender now : String) (i : Interview)
    (hfi : findInterview db.interviews iid = some i)
    (hst : i.interview_status = .completed ∨ i.interview_status = .scheduled) :
    ∃ db2, moveToNextRoundDB db iid req sender now = .ok db2 ∧
      (findInterview db2.interviews iid).map Interview.interview_status = some .passed ∧
      findCandidate db2.candidates i.candidate_id =
        (findCandidate db.candidates i.candidate_id).map fun c =>
          { c with
            status := "IN_PROGRESS"
            current_round := i.interview_round + 1
            last_interview_passed := some iid
            updated_at := now } := by
  refine ⟨{ db with
      interviews := updateInterviewIn db.interviews iid fun j =>
        { j with
          interview_status := .passed
          feedback := req.feedback
          rating := req.rating
          updated_at := now
          passed_by := some sender
          passed_at := some now }
      candidates := updateCandidateIn db.candidates i.candidate_id fun c =>
        { c with
          status := "IN_PROGRESS"
          current_round := i.interview_round + 1
          last_interview_passed := some iid
          updated_at := now } }, ?_, ?_, ?_⟩
  · unfold moveToNextRoundDB
    rw [hfi]
    rcases hst with h | h <;> simp [h]
  · have hupd := findInterview_updateInterviewIn db.interviews iid
      (fun j => { j with
        interview_status := .passed
        feedback := req.feedback
        rating := req.rating
        updated_at := now
        passed_by := some sender
        passed_at := some now }) (fun _ => rfl)
    simp [hupd, hfi]
  · exact findCandidate_updateCandidateIn db.candidates i.candidate_id _ (fun _ => rfl)

/-- Witness for C5 (amended): moving the concrete Completed round-1
interview sets the candidate round to 2. -/
theorem C5_amended_move_sets_round_witness :
    findInterview twoRoundDB.interviews "intA" = some roundOneInterview ∧
      (roundOneInterview.interview_status = .completed ∨
        roundOneInterview.interview_status = .scheduled) ∧
      ∃ db2, moveToNextRoundDB twoRoundDB "intA" {} "admin" "t1" = .ok db2 ∧
        (findInterview db2.interviews "intA").map Interview.interview_status =
          some .passed ∧
        findCandidate db2.candidates roundOneInterview.candidate_id =
          (findCandidate twoRoundDB.candidates roundOneInterview.candidate_id).map
            fun c => { c with
              status := "IN_PROGRESS"
              current_round := roundOneInterview.interview_round + 1
              last_interview_passed := some "intA"
              updated_at := "t1" } :=
  ⟨by decide, by decide,
    C5_amended_move_sets_round twoRoundDB "intA" {} "admin" "t1" roundOneInterview
      (by decide) (by decide)⟩

/-- An update of the first interview with a given id that does not change
its status keeps every status count. -/
theorem countStatus_updateInterviewIn (l : List Interview) (iid : String) (x : Interview)
    (f : Interview → Interview) (hfind : findInterview l iid = some x)
    (hstat : (f x).interview_status = x.interview_status) (st : IStatus) :
    countStatus (updateInterviewIn l iid f) st = countStatus l st := by
  induction l with
  | nil => rfl
  | cons a rest ih =>
    by_cases hp : a.interview_id = iid
    · have hxa : x = a := by
        have h2 : findInterview (a :: rest) iid = some a := findInterview_cons_pos hp
        rw [hfind] at h2
        exact Option.some.inj h2
      subst hxa
      rw [updateInterviewIn_cons_pos hp, countStatus_cons, countStatus_cons, hstat]
    · have hfind2 : findInterview rest iid = some x := by
        rw [← findInterview_cons_neg hp]
        exact hfind
      rw [updateInterviewIn_cons_neg hp, countStatus_cons, countStatus_cons, ih hfind2]

/-- Claim C7: mark-completed on an already Completed interview succeeds
as a no-op on the status (it stays Completed) and leaves every pipeline
statistic - the completed bucket and the total included - unchanged. -/
theorem C7_mark_completed_idempotent (db : DB) (iid now : String) (i : Interview)
    (hfi : findInterview db.interviews iid = some i)
    (hst : i.interview_status = .completed) :
    ∃ db2, markCompletedDB db iid now = .ok db2 ∧
      (findInterview db2.interviews iid).map Interview.interview_status =
        some .completed ∧
      pipelineStats db2.interviews = pipelineStats db.interviews := by
  refine ⟨{ db with interviews := updateInterviewIn db.interviews iid fun j =>
      { j with interview_status := .completed, updated_at := now } }, ?_, ?_, ?_⟩
  · unfold markCompletedDB
    rw [hfi]
  · have hupd := findInterview_updateInterviewIn db.interviews iid
      (fun j => { j with interview_status := .completed, updated_at := now })
      (fun _ => rfl)
    simp [hupd, hfi]
  · have hcs := countStatus_updateInterviewIn db.interviews iid i
      (fun j => { j with interview_status := .completed, updated_at := now }) hfi
      (by simp [hst])
    simp [pipelineStats, hcs]

/-- Witness for C7: a second mark-completed on the concrete Completed
round-1 interview. -/
theorem C7_mark_completed_idempotent_witness :
    findInterview twoRoundDB.interviews "intA" = some roundOneInterview ∧
      roundOneInterview.interview_status = .completed ∧
      ∃ db2, markCompletedDB twoRoundDB "intA" "t9" = .ok db2 ∧
        (findInterview db2.interviews "intA").map Interview.interview_status =
          some .completed ∧
        pipelineStats db2.interviews = pipelineStats twoRoundDB.interviews :=
  ⟨by decide, by decide,
    C7_mark_completed_idempotent twoRoundDB "intA" "t9" roundOneInterview
      (by decide) (by decide)⟩

/-- The exhaustive failure conditions of one booking attempt. -/
theorem bookSlot_error_iff (i : Interview) (sid : String) (conf : Bool) (now : String) :
    (∃ e, bookSlot i sid conf now = .error e) ↔
      ¬ i.interview_status = .awaitingConfirmation ∨
        findSlot i.proposed_slots sid = none ∨
        ∃ s, findSlot i.proposed_slots sid = some s ∧ s.is_available = false := by
  unfold bookSlot
  by_cases hst : i.interview_status = .awaitingConfirmation
  · rw [if_pos hst]
    cases hfs : findSlot i.proposed_slots sid with
    | none => simp [hst, hfs]
    | some s =>
      by_cases hav : s.is_available
      · simp [hst, hfs, hav]
      · simp [hst, hfs, hav]
  · rw [if_neg hst]
    simp [hst]

/-- Claim C9: a booking request fails exactly for the four documented
reasons (unknown interview id, interview not awaiting confirmation, slot
id absent, slot already claimed), and on any failure - on both the
authenticated endpoint and the public one - the exception is raised
before the write, so the stored interview record is completely
unchanged. -/
theorem C9_book_failure_frame (db : DB) (iid sid : String) (conf : Bool) (now : String) :
    ((∃ e, bookSlotDB db iid sid conf now = .error e) ↔
        findInterview db.interviews iid = none ∨
          ∃ i, findInterview db.interviews iid = some i ∧
            (¬ i.interview_status = .awaitingConfirmation ∨
              findSlot i.proposed_slots sid = none ∨
              ∃ s, findSlot i.proposed_slots sid = some s ∧ s.is_available = false)) ∧
      (∀ e, bookSlotDB db iid sid conf now = .error e →
        run db [Command.book iid sid conf now] = db) ∧
      (∀ e, publicBookDB db iid sid now = .error e →
        run db [Command.publicBook iid sid now] = db) := by
  refine ⟨?_, ?_, ?_⟩
  · unfold bookSlotDB
    cases hfi : findInterview db.interviews iid with
    | none => simp [hfi]
    | some i =>
      dsimp only
      cases hbook : bookSlot i sid conf now with
      | error e =>
        have hiff := (bookSlot_error_iff i sid conf now).mp ⟨e, hbook⟩
        simp [hiff]
      | ok j =>
        constructor
        · rintro ⟨e2, he⟩
          simp at he
        · rintro (hnone | ⟨i2, hi2, hP⟩)
          · simp at hnone
          · have hi2i : i2 = i := (Option.some.inj hi2).symm
            subst hi2i
            obtain ⟨e2, he⟩ := (bookSlot_error_iff i2 sid conf now).mpr hP
            rw [hbook] at he
            simp at he
  · intro e he
    simp [run, step, he]
  · intro e he
    simp [run, step, he]

/-- Witness for C9: a booking on an unknown interview id fails and leaves
the concrete database untouched. -/
theorem C9_book_failure_frame_witness :
    run baseDB [Command.book "missing" "s1" true "t1"] = baseDB :=
  (C9_book_failure_frame baseDB "missing" "s1" true "t1").2.1
    (ApiError.notFound "Interview not found") (by rfl)

/-- Whether the request opted into automatic calendar-event creation. -/
def calendarRequested (req : Option SendInterviewInviteRequest) : Bool :=
  match req with
  | some r => decide (r.auto_create_calendar_event = some true)
  | none => false

/-- Claim C10: send-invite overwrites interview_mode, duration_minutes
and time_zone with the request values - or with the literals Video, 30
and IST (Indian Standard Time) when the body is omitted - for every
prior state of the interview, and overwrites meeting_link with the
request value (empty when the body is omitted) whenever no calendar
event was requested; it also sets invite_sent.  None of these writes is
conditioned on the previously stored values. -/
theorem C10_send_invite_overwrites (i : Interview)
    (req : Option SendInterviewInviteRequest) (cal : Option CalendarResult)
    (sender now : String) :
    (sendInviteUpd i req cal sender now).invite_sent = true ∧
      (sendInviteUpd i req cal sender now).interview_mode =
        (match req with | some r => r.interview_mode | none => some "Video") ∧
      (sendInviteUpd i req cal sender now).duration_minutes =
        (match req with | some r => r.duration_minutes | none => some 30) ∧
      (sendInviteUpd i req cal sender now).time_zone =
        (match req with
          | some r => r.time_zone
          | none => some "IST (Indian Standard Time)") ∧
      (calendarRequested req = false →
        (sendInviteUpd i req cal sender now).meeting_link =
          (match req with | some r => r.meeting_link | none => some "")) := by
  cases req with
  | none => simp [sendInviteUpd, calendarRequested]
  | some r =>
    refine ⟨rfl, rfl, rfl, rfl, ?_⟩
    intro hreq
    simp only [calendarRequested, decide_eq_false_iff_not] at hreq
    simp [sendInviteUpd, hreq]

/-- Witness for C10: send-invite with an omitted body on the concrete
created interview installs the documented defaults. -/
theorem C10_send_invite_overwrites_witness :
    (sendInviteUpd roundTripInterview none none "admin" "t3").invite_sent = true ∧
      (sendInviteUpd roundTripInterview none none "admin" "t3").interview_mode =
        some "Video" ∧
      (sendInviteUpd roundTripInterview none none "admin" "t3").duration_minutes =
        some 30 ∧
      (sendInviteUpd roundTripInterview none none "admin" "t3").time_zone =
        some "IST (Indian Standard Time)" ∧
      (calendarRequested none = false →
        (sendInviteUpd roundTripInterview none none "admin" "t3").meeting_link =
          some "") :=
  C10_send_invite_overwrites roundTripInterview none none "admin" "t3"

end Arbeit
